import Mathlib

/-!
Verification of the line-resistance crossbar model (`memristor/crossbar/model.py`).

The Python code is shallowly embedded over exact rationals.  Tensors at the
facade level (`ideal_vmm`, `naive_linear_memristive_vmm`) are modelled by the
`Tensor` type, which records the dimensionality produced by `.squeeze()`.
The circuit-builder level (`make_A` .. `make_E`, `solve_v`,
`lineres_memristive_vmm`) works with unbundled matrices `ℕ → ℕ → ℚ` together
with explicit dimension arguments; every torch call that can raise
(negative tensor sizes, out-of-range indices, shape mismatches in
elementwise ops and `index_put`, `torch.cat` applied to `None`, too many
indices) is modelled by an `Except Err` result with an explicit guard.
-/

/-- Failure modes of the embedded torch operations.  `negDim` is the
RuntimeError from building a tensor with a negative size, `indexOOB` an
IndexError (out-of-range or too-many indices), `shapeMismatch` a RuntimeError
from incompatible shapes, `typeErrorNoneCat` the TypeError raised by
`torch.cat` when one argument is `None`, `matmulLowDim` the RuntimeError from
`torch.matmul` on a 0-dim argument, `singular` the error from inverting a
singular matrix. -/
inductive Err where
  | negDim
  | indexOOB
  | shapeMismatch
  | typeErrorNoneCat
  | matmulLowDim
  | singular
deriving DecidableEq

deriving instance DecidableEq for Except

/-- Unbundled rational matrix; dimensions are tracked separately and entries
outside the intended range are irrelevant (taken to be junk/zero). -/
abbrev MatQ := ℕ → ℕ → ℚ

/-- Unbundled rational vector. -/
abbrev VecQ := ℕ → ℚ

/-- Result of a torch tensor after `.squeeze()`: 0-, 1- or 2-dimensional. -/
inductive Tensor where
  | scalar (x : ℚ)
  | vec (xs : List ℚ)
  | mat (xss : List (List ℚ))
deriving DecidableEq

/-- Dot product of two lists (`torch` reduces over the shared length). -/
def dotL (a b : List ℚ) : ℚ := (List.zipWith (· * ·) a b).sum

/-- Scalar multiple of a vector, `k * v` elementwise. -/
def smulL (k : ℚ) (v : List ℚ) : List ℚ := v.map (fun x => k * x)

/-- Elementwise sum of two vectors. -/
def addL (v u : List ℚ) : List ℚ := List.zipWith (· + ·) v u

/-- Scalar multiple of a tensor. -/
def smulT (k : ℚ) : Tensor → Tensor
  | .scalar x => .scalar (k * x)
  | .vec xs => .vec (smulL k xs)
  | .mat xss => .mat (xss.map (smulL k))

/-- Elementwise sum of two tensors of the same shape (the mismatched cases
never arise where this is used and default to the first argument). -/
def addT : Tensor → Tensor → Tensor
  | .scalar x, .scalar y => .scalar (x + y)
  | .vec a, .vec b => .vec (addL a b)
  | .mat a, .mat b => .mat (List.zipWith addL a b)
  | t, _ => t

/-- Semantics of `torch.matmul` on squeezed tensors: 0-dim arguments raise,
1-D with 1-D is a dot product producing a 0-dim scalar, 2-D with 1-D is a
matrix-vector product, and inner dimensions must agree. -/
def torchMatmul : Tensor → Tensor → Except Err Tensor
  | .scalar _, _ => .error .matmulLowDim
  | _, .scalar _ => .error .matmulLowDim
  | .vec a, .vec b =>
      if a.length = b.length then .ok (.scalar (dotL a b)) else .error .shapeMismatch
  | .mat A, .vec b =>
      if ∀ r ∈ A, r.length = b.length then .ok (.vec (A.map (fun r => dotL r b)))
      else .error .shapeMismatch
  | .vec a, .mat B =>
      if B.length = a.length then
        .ok (.vec ((List.range (B.headD []).length).map
          (fun j => dotL a (B.map (fun r => r.getD j 0)))))
      else .error .shapeMismatch
  | .mat A, .mat B =>
      if ∀ r ∈ A, r.length = B.length then
        .ok (.mat (A.map (fun r => (List.range (B.headD []).length).map
          (fun j => dotL r (B.map (fun s => s.getD j 0))))))
      else .error .shapeMismatch

/-- Electrical state of a `LineResistanceCrossbar` as set up by `__init__`:
array geometry, the word/bit line segment conductances, the four terminal
conductance vectors (`g_s_wl_in` and `g_s_wl_out` of length `m`, `g_s_bl_in`
and `g_s_bl_out` of length `n`) and the fixed bias voltages (`v_bl_in`,
`v_bl_out` of length `n`, `v_wl_out` of length `m`). -/
structure CrossbarCfg where
  n : ℕ
  m : ℕ
  g_wl : ℚ
  g_bl : ℚ
  g_s_wl_in : ℕ → ℚ
  g_s_wl_out : ℕ → ℚ
  g_s_bl_in : ℕ → ℚ
  g_s_bl_out : ℕ → ℚ
  v_bl_in : ℕ → ℚ
  v_bl_out : ℕ → ℚ
  v_wl_out : ℕ → ℚ

/-- The configuration `__init__` builds from the crossbar parameters:
`g_wl = 1/r_wl`, `g_bl = 1/r_bl`, driven terminals at `1/r_in` and `1/r_out`,
floating terminals at `1e-15`, and all non-signal bias voltages zero. -/
def mkCfg (n m : ℕ) (r_wl r_bl r_in r_out : ℚ) : CrossbarCfg where
  n := n
  m := m
  g_wl := 1 / r_wl
  g_bl := 1 / r_bl
  g_s_wl_in := fun _ => 1 / r_in
  g_s_wl_out := fun _ => 1 / 10 ^ 15
  g_s_bl_in := fun _ => 1 / 10 ^ 15
  g_s_bl_out := fun _ => 1 / r_out
  v_bl_in := fun _ => 0
  v_bl_out := fun _ => 0
  v_wl_out := fun _ => 0

/-- A `LineResistanceCrossbar`: geometry, the ideal target conductances, the
fitted conductances `gfit i j` (the per-device `g_linfit` of the calibrated
device; the devices module is external to the modelled source, so the fitted
values and the per-device `inference` response are abstract parameters here,
per the spec description of the Device Interface), and the line/terminal
resistances. -/
structure Crossbar where
  n : ℕ
  m : ℕ
  ideal : ℕ → ℕ → ℚ
  gfit : ℕ → ℕ → ℚ
  inference : ℕ → ℕ → ℚ → ℚ
  r_wl : ℚ
  r_bl : ℚ
  r_in : ℚ
  r_out : ℚ

/-- The electrical configuration derived in `__init__`. -/
def Crossbar.cfg (cb : Crossbar) : CrossbarCfg :=
  mkCfg cb.n cb.m cb.r_wl cb.r_bl cb.r_in cb.r_out

/-- The `n × m` nested-list form of an entry function (row-major). -/
def rowsOf (n m : ℕ) (g : ℕ → ℕ → ℚ) : List (List ℚ) :=
  (List.range n).map (fun i => (List.range m).map (fun j => g i j))

/-- Semantics of `torch.tensor([[...]]).squeeze()` on an `n × m` array:
dimensions of size 1 are removed, so the result is 0-, 1- or 2-dimensional. -/
def torchSqueeze (n m : ℕ) (g : ℕ → ℕ → ℚ) : Tensor :=
  if n = 1 ∧ m = 1 then .scalar (g 0 0)
  else if n = 1 then .vec ((List.range m).map (fun j => g 0 j))
  else if m = 1 then .vec ((List.range n).map (fun i => g i 0))
  else .mat (rowsOf n m g)

/-- `self.fitted_w`, the squeezed tensor of fitted conductances built at
construction (line 29-30 of the source). -/
def fitted_w (cb : Crossbar) : Tensor := torchSqueeze cb.n cb.m cb.gfit

/-- `ideal_vmm`: `torch.matmul(self.ideal_w, v)` with the (2-D) ideal target
conductance matrix. -/
def ideal_vmm (cb : Crossbar) (v : List ℚ) : Except Err Tensor :=
  torchMatmul (.mat (rowsOf cb.n cb.m cb.ideal)) (.vec v)

/-- `naive_linear_memristive_vmm`: `torch.matmul(self.fitted_w, v)` with the
squeezed fitted conductance tensor. -/
def naive_linear_memristive_vmm (cb : Crossbar) (v : List ℚ) : Except Err Tensor :=
  torchMatmul (fitted_w cb) (.vec v)

/-- `make_A` applied to a conductance tensor of shape `r × c` (so that
mis-shaped arguments can be discussed).  Guards model the torch failures:
`torch.ones(n - 2)` with `n < 2` has a negative size; `W_t[i, :]` for
`i in range(m)` needs `m ≤ c`; adding the `r × r` device diagonal to the
`n × n` word-line ladder needs `r = n`.  On success the result is the
`(m·n) × (m·n)` block-diagonal word-line matrix: within the block of column
`i`, the diagonal entry of node `k` is the device conductance `W[k, i]` plus
the ladder self-conductance (`g_wl` at the two ends, `2·g_wl` inside) plus
the terminal conductance (`g_s_wl_in i` at node 0, `g_s_wl_out i` at node
`n-1`), and the off-diagonal neighbours get `-g_wl`. -/
def make_A (cfg : CrossbarCfg) (r c : ℕ) (W : MatQ) : Except Err MatQ :=
  if cfg.n < 2 then .error .negDim
  else if ¬ cfg.m ≤ c then .error .indexOOB
  else if ¬ r = cfg.n then .error .shapeMismatch
  else .ok (fun p q =>
    if p < cfg.m * cfg.n ∧ q < cfg.m * cfg.n ∧ p / cfg.n = q / cfg.n then
      (if p % cfg.n = q % cfg.n then
        W (p % cfg.n) (p / cfg.n)
        + (if p % cfg.n = 0 ∨ p % cfg.n = cfg.n - 1 then cfg.g_wl else 2 * cfg.g_wl)
        + (if p % cfg.n = 0 then cfg.g_s_wl_in (p / cfg.n) else 0)
        + (if p % cfg.n = cfg.n - 1 then cfg.g_s_wl_out (p / cfg.n) else 0)
      else if p % cfg.n + 1 = q % cfg.n ∨ q % cfg.n + 1 = p % cfg.n then -cfg.g_wl
      else 0)
    else 0)

/-- `make_B`: `torch.block_diag` of the `m` negated diagonals of the columns
of `W` — the `(m·r) × (m·r)` matrix with `-W[k, i]` at diagonal position
`i·r + k` and zero elsewhere.  `W_t[i, :]` for `i in range(m)` needs
`m ≤ c`. -/
def make_B (cfg : CrossbarCfg) (r c : ℕ) (W : MatQ) : Except Err MatQ :=
  if ¬ cfg.m ≤ c then .error .indexOOB
  else .ok (fun p q =>
    if p = q ∧ p < cfg.m * r then -W (p % r) (p / r) else 0)

/-- The tensor assembled (and then discarded) on line 159 of the source:
`torch.cat([makec(j) for j in range(n)], dim=0)` where
`makec(j) = torch.zeros(m, m*n).index_put((arange(m), arange(m)*n + j), W_t[:, j])`.
Its row `j·m + i` has the single nonzero entry `W[j, i]` at column
`i·n + j`. -/
def make_C_assembled (n m : ℕ) (W : MatQ) : MatQ := fun p q =>
  if p < n * m ∧ q = p % m * n + p / m then W (p / m) (p % m) else 0

/-- `make_C`: the body builds the coupling block (see `make_C_assembled`) but
the function has no `return` statement, so Python discards the assembled
tensor and returns `None`.  The guards model the failures of the body itself:
`W_t[:, j]` for `j in range(n)` needs `n ≤ r`, and `index_put` with `m` index
pairs needs the value column `W_t[:, j]` (length `c`) to match (`c = m`, or
`c = 1` by broadcasting). -/
def make_C (cfg : CrossbarCfg) (r c : ℕ) (W : MatQ) : Except Err (Option MatQ) :=
  if ¬ cfg.n ≤ r then .error .indexOOB
  else if ¬ (c = cfg.m ∨ c = 1) then .error .shapeMismatch
  else
    let _assembled := make_C_assembled cfg.n cfg.m W
    .ok none

/-- `make_D`: the bit-line ladder equations, `torch.cat` over `j in range(n)`
of `m`-row blocks, so global row `j·m + i`.  The entries replay the source
assignments in order (later assignments win): row 0 has
`-g_s_bl_in[j] - g_bl - W[j, 0]` at column `j` and `g_bl` at column `n + j`;
interior rows `i` have `-2·g_bl - W[j, i]` at `n·i + j` and `g_bl` at both
`n·(i-1) + j` and `j` (the stray `d[i, j] = g_bl` of line 175); the last row
has `-g_s_bl_out[j] - W[j, m-1] - g_bl` at `n·(m-1) + j` and `g_bl` at
`n·(m-2) + j` and at `j`.  The assignment `d[0, n + j]` needs `m ≥ 2`
(IndexError otherwise), and the `W_t[i, j]` accesses need `n ≤ r` and
`m ≤ c`. -/
def make_D (cfg : CrossbarCfg) (r c : ℕ) (W : MatQ) : Except Err MatQ :=
  if cfg.m < 2 then .error .indexOOB
  else if ¬ (cfg.n ≤ r ∧ cfg.m ≤ c) then .error .indexOOB
  else .ok (fun p q =>
    if p < cfg.n * cfg.m ∧ q < cfg.m * cfg.n then
      (let j := p / cfg.m
       let i := p % cfg.m
       if i = 0 then
         (if q = j then -cfg.g_s_bl_in j - cfg.g_bl - W j 0
          else if q = cfg.n + j then cfg.g_bl else 0)
       else if i = cfg.m - 1 then
         (if q = cfg.n * (cfg.m - 1) + j then -cfg.g_s_bl_out j - W j (cfg.m - 1) - cfg.g_bl
          else if q = cfg.n * (cfg.m - 2) + j ∨ q = j then cfg.g_bl else 0)
       else
         (if q = cfg.n * i + j then -cfg.g_bl - W j i - cfg.g_bl
          else if q = cfg.n * (i - 1) + j ∨ q = j then cfg.g_bl else 0))
    else 0)

/-- `make_E`: the right-hand side, `torch.cat((E_W, E_B))`.  `E_W` (first
`m·n` entries) has `v_applied[i] * g_s_wl_in[i]` at the input end `i·n` of
each column and `v_wl_out[i] * g_s_wl_out[i]` at the output end `i·n + (n-1)`.
`E_B` (last `m·n` entries) uses the bit-line INPUT bias at both ends:
`-v_bl_in[i] * g_s_bl_in[i]` at the input end and
`-v_bl_in[i] * g_s_bl_out[i]` at the output end; `v_bl_out` is never read.
Guards: `torch.zeros(n - 2)` needs `n ≥ 2`; `v_bl_in[i]`, `g_s_bl_in[i]`,
`g_s_bl_out[i]` (length `n`) are indexed by `i in range(m)`, needing `m ≤ n`;
`v_applied[i]` needs the applied vector length `vl ≥ m`. -/
def make_E (cfg : CrossbarCfg) (vl : ℕ) (v : VecQ) : Except Err VecQ :=
  if cfg.n < 2 then .error .negDim
  else if ¬ cfg.m ≤ cfg.n then .error .indexOOB
  else if vl < cfg.m then .error .indexOOB
  else .ok (fun p =>
    if p < cfg.m * cfg.n then
      (if p % cfg.n = 0 then v (p / cfg.n) * cfg.g_s_wl_in (p / cfg.n)
       else if p % cfg.n = cfg.n - 1 then cfg.v_wl_out (p / cfg.n) * cfg.g_s_wl_out (p / cfg.n)
       else 0)
    else if p < 2 * (cfg.m * cfg.n) then
      (if (p - cfg.m * cfg.n) % cfg.n = 0 then
         -(cfg.v_bl_in ((p - cfg.m * cfg.n) / cfg.n) * cfg.g_s_bl_in ((p - cfg.m * cfg.n) / cfg.n))
       else if (p - cfg.m * cfg.n) % cfg.n = cfg.n - 1 then
         -(cfg.v_bl_in ((p - cfg.m * cfg.n) / cfg.n) * cfg.g_s_bl_out ((p - cfg.m * cfg.n) / cfg.n))
       else 0)
    else 0)

/-- Determinant of the top-left `k × k` corner by cofactor expansion along
the first row (an exact-rational stand-in for the dense solver). -/
def detQ : ℕ → MatQ → ℚ
  | 0, _ => 1
  | k + 1, M =>
      ((List.range (k + 1)).map (fun j =>
        (-1 : ℚ) ^ j * M 0 j
          * detQ k (fun a b => M (a + 1) (if b < j then b else b + 1)))).sum

/-- Inverse of the top-left `k × k` corner via cofactors (used only in the
unreachable success branch of `solve_v`). -/
def invQ (k : ℕ) (M : MatQ) : MatQ := fun i j =>
  (-1 : ℚ) ^ (i + j)
    * detQ (k - 1) (fun a b => M (if a < j then a else a + 1) (if b < i then b else b + 1))
    / detQ k M

/-- `solve_v`: builds `A`, `B`, `C`, `D`, `E` in source order, each failure
propagating as the corresponding exception.  Because `make_C` returns `None`,
the assembly `torch.cat((C, D), 1)` raises a TypeError on every call that
gets that far; the `some` branch below (assemble `M = [[A, B], [C, D]]`,
invert, multiply by `E`) is the intended but unreachable computation. -/
def solve_v (cfg : CrossbarCfg) (r c : ℕ) (W : MatQ) (vl : ℕ) (v : VecQ) :
    Except Err VecQ :=
  match make_A cfg r c W with
  | .error e => .error e
  | .ok Am =>
    match make_B cfg r c W with
    | .error e => .error e
    | .ok Bm =>
      match make_C cfg r c W with
      | .error e => .error e
      | .ok Copt =>
        match make_D cfg r c W with
        | .error e => .error e
        | .ok Dm =>
          match make_E cfg vl v with
          | .error e => .error e
          | .ok Em =>
            match Copt with
            | none => .error .typeErrorNoneCat
            | some Cm =>
              let k := cfg.m * cfg.n
              let M : MatQ := fun p q =>
                if p < k then (if q < k then Am p q else Bm p (q - k))
                else (if q < k then Cm (p - k) q else Dm (p - k) (q - k))
              if detQ (2 * k) M = 0 then .error .singular
              else .ok (fun p =>
                ((List.range (2 * k)).map (fun q => invQ (2 * k) M p q * Em q)).sum)

/-- The conductance update of lines 101-102: the working conductance becomes
`inference(ΔV[i,j]) / ΔV[i,j]` elementwise.  A zero voltage drop makes the
float division produce NaN or ±inf — an undefined conductance, modelled as
`none`; the previous working conductance is not consulted.  No exception is
raised by the division itself. -/
def refine_update (inf : ℕ → ℕ → ℚ → ℚ) (Vdiff : MatQ) (i j : ℕ) : Option ℚ :=
  if Vdiff i j = 0 then none
  else some (inf i j (Vdiff i j) / Vdiff i j)

/-- The refinement loop of lines 97-103: each round reshapes the solved
voltage vector (`V_wl[i,j] = V[j·n + i]`, `V_bl[i,j] = V[m·n + j·n + i]`),
updates the working conductance from the local voltage drops and re-solves.
Returns the final voltages together with the final working conductance.
(The NaN propagation of a zero-drop division is not modelled inside this
loop: it is unreachable, since `solve_v` never succeeds; `refine_update`
records the zero-drop behaviour itself.) -/
def lineresLoop (cb : Crossbar) (vl : ℕ) (v : VecQ) :
    ℕ → VecQ → MatQ → Except Err (VecQ × MatQ)
  | 0, V, W => .ok (V, W)
  | k + 1, V, _W =>
    let Vdiff : MatQ := fun i j => V (cb.m * cb.n + j * cb.n + i) - V (j * cb.n + i)
    let Wnew : MatQ := fun i j =>
      match refine_update cb.inference Vdiff i j with
      | some g => g
      | none => 0
    match solve_v cb.cfg cb.n cb.m Wnew vl v with
    | .error e => .error e
    | .ok Vnew => lineresLoop cb vl v k Vnew Wnew

/-- `lineres_memristive_vmm(v_applied, iter)`.  For `n = 1` or `m = 1` the
squeezed `fitted_w` has fewer than two dimensions and the very first
`W_t[i, :]` slice inside `make_A` raises an IndexError.  Otherwise the
initial `solve_v` runs (and, in the source, always raises); were it to
succeed, after the loop line 104 indexes the 2-D solve result
`V_crossbar` (shape `(2mn, 1)`) with three indices `[0, :, :]`, an
IndexError. -/
def lineres_memristive_vmm (cb : Crossbar) (vl : ℕ) (v : VecQ) (iter : ℕ) :
    Except Err VecQ :=
  if cb.n = 1 ∨ cb.m = 1 then .error .indexOOB
  else
    match solve_v cb.cfg cb.n cb.m cb.gfit vl v with
    | .error e => .error e
    | .ok V0 =>
      match lineresLoop cb vl v iter V0 cb.gfit with
      | .error e => .error e
      | .ok _ => .error .indexOOB

/-- A 2×2 electrical configuration with unit resistances, for concrete
evaluations. -/
def cfgD : CrossbarCfg := mkCfg 2 2 1 1 1 1

/-- The same configuration with the bit-line output bias set to 1 V (as the
source comment on line 47 describes). -/
def cfgE : CrossbarCfg := { cfgD with v_bl_out := fun _ => 1 }

/-- A constant 2×2 conductance matrix. -/
def W1 : MatQ := fun _ _ => 1 / 100

/-- A varying conductance matrix for concrete evaluations. -/
def Wc : MatQ := fun i j => (1 + i + j : ℚ) / 100

/-- A constant applied voltage vector (0.2 V everywhere). -/
def vIn : VecQ := fun _ => 1 / 5

/-- A concrete 2×2 crossbar with linear device response. -/
def cb22 : Crossbar where
  n := 2
  m := 2
  ideal := fun i j => (1 + i + j : ℚ) / 100
  gfit := fun i j => (1 + i + j : ℚ) / 100
  inference := fun i j x => (1 + i + j : ℚ) / 100 * x
  r_wl := 1
  r_bl := 1
  r_in := 1
  r_out := 1

/-- The 1×1 scenario crossbar of the spec: a single device of ideal
conductance `1e-4` S, negligible line resistance, matching terminal
resistances. -/
def cb11 : Crossbar where
  n := 1
  m := 1
  ideal := fun _ _ => 1 / 10000
  gfit := fun _ _ => 1 / 10000
  inference := fun _ _ x => x / 10000
  r_wl := 1 / 100000
  r_bl := 1 / 100000
  r_in := 10
  r_out := 10

/-- A 2×1 crossbar (single column), for the squeeze behaviour. -/
def cb21 : Crossbar where
  n := 2
  m := 1
  ideal := fun i _ => (3 + i : ℚ) / 10
  gfit := fun i _ => (3 + i : ℚ) / 10
  inference := fun i _ x => (3 + i : ℚ) / 10 * x
  r_wl := 1
  r_bl := 1
  r_in := 1
  r_out := 1

/-- A 1×2 crossbar (single row), for the squeeze behaviour. -/
def cb12 : Crossbar where
  n := 1
  m := 2
  ideal := fun _ j => (3 + j : ℚ) / 10
  gfit := fun _ j => (3 + j : ℚ) / 10
  inference := fun _ j x => (3 + j : ℚ) / 10 * x
  r_wl := 1
  r_bl := 1
  r_in := 1
  r_out := 1

/-- The payload `make_B` produces for `cfgD` and `W1` (used to instantiate
hypotheses at a concrete input). -/
def BD : MatQ := fun p q =>
  if p = q ∧ p < cfgD.m * 2 then -W1 (p % 2) (p / 2) else 0

/-- The payload `make_E` produces for `cfgD`, applied length 2 and `vIn`. -/
def EvD : VecQ := fun p =>
  if p < cfgD.m * cfgD.n then
    (if p % cfgD.n = 0 then vIn (p / cfgD.n) * cfgD.g_s_wl_in (p / cfgD.n)
     else if p % cfgD.n = cfgD.n - 1 then
       cfgD.v_wl_out (p / cfgD.n) * cfgD.g_s_wl_out (p / cfgD.n)
     else 0)
  else if p < 2 * (cfgD.m * cfgD.n) then
    (if (p - cfgD.m * cfgD.n) % cfgD.n = 0 then
       -(cfgD.v_bl_in ((p - cfgD.m * cfgD.n) / cfgD.n)
         * cfgD.g_s_bl_in ((p - cfgD.m * cfgD.n) / cfgD.n))
     else if (p - cfgD.m * cfgD.n) % cfgD.n = cfgD.n - 1 then
       -(cfgD.v_bl_in ((p - cfgD.m * cfgD.n) / cfgD.n)
         * cfgD.g_s_bl_out ((p - cfgD.m * cfgD.n) / cfgD.n))
     else 0)
  else 0

/-! Helper lemmas. -/

/-- `make_C` never produces a block: it either raises or returns `None`. -/
theorem make_C_cases (cfg : CrossbarCfg) (r c : ℕ) (W : MatQ) :
    make_C cfg r c W = .error .indexOOB
    ∨ make_C cfg r c W = .error .shapeMismatch
    ∨ make_C cfg r c W = .ok none := by
  unfold make_C
  split_ifs <;> simp

/-- Every call of `solve_v` ends in an exception. -/
theorem solve_v_isError (cfg : CrossbarCfg) (r c : ℕ) (W : MatQ) (vl : ℕ) (v : VecQ) :
    ∃ e, solve_v cfg r c W vl v = .error e := by
  unfold solve_v
  cases hA : make_A cfg r c W with
  | error e => exact ⟨e, rfl⟩
  | ok Am =>
    cases hB : make_B cfg r c W with
    | error e => exact ⟨e, rfl⟩
    | ok Bm =>
      rcases make_C_cases cfg r c W with hC | hC | hC <;> rw [hC]
      · exact ⟨.indexOOB, rfl⟩
      · exact ⟨.shapeMismatch, rfl⟩
      · cases hD : make_D cfg r c W with
        | error e => exact ⟨e, rfl⟩
        | ok Dm =>
          cases hE : make_E cfg vl v with
          | error e => exact ⟨e, rfl⟩
          | ok Em => exact ⟨.typeErrorNoneCat, rfl⟩

/-- Every call of the full multiply ends in an exception. -/
theorem lineres_isError (cb : Crossbar) (vl : ℕ) (v : VecQ) (iter : ℕ) :
    ∃ e, lineres_memristive_vmm cb vl v iter = .error e := by
  unfold lineres_memristive_vmm
  by_cases h : cb.n = 1 ∨ cb.m = 1
  · rw [if_pos h]; exact ⟨.indexOOB, rfl⟩
  · rw [if_neg h]
    obtain ⟨e, he⟩ := solve_v_isError cb.cfg cb.n cb.m cb.gfit vl v
    rw [he]
    exact ⟨e, rfl⟩

/-- Within-block index bound. -/
theorem idx_block_lt {i r n m : ℕ} (hi : i < m) (hr : r < n) : i * n + r < m * n := by
  have h2 : i * n + n = (i + 1) * n := by ring
  have h3 : (i + 1) * n ≤ m * n := Nat.mul_le_mul_right n hi
  omega

/-- Division recovers the block number. -/
theorem block_div {i r n : ℕ} (hr : r < n) : (i * n + r) / n = i := by
  rw [Nat.mul_comm, Nat.mul_add_div (by omega), Nat.div_eq_of_lt hr, Nat.add_zero]

/-- Remainder recovers the in-block offset. -/
theorem block_mod {i r n : ℕ} (hr : r < n) : (i * n + r) % n = r := by
  rw [Nat.mul_comm i n, Nat.mul_add_mod, Nat.mod_eq_of_lt hr]

/-- `make_A` succeeds exactly when the geometry and shapes line up. -/
theorem make_A_isOk (cfg : CrossbarCfg) {r c : ℕ} (W : MatQ)
    (h2 : 2 ≤ cfg.n) (hc : cfg.m ≤ c) (hr : r = cfg.n) :
    ∃ Am, make_A cfg r c W = .ok Am := by
  unfold make_A
  rw [if_neg (by omega), if_neg (not_not_intro hc), if_neg (not_not_intro hr)]
  exact ⟨_, rfl⟩

/-- `make_B` succeeds when the column count covers the blocks. -/
theorem make_B_isOk (cfg : CrossbarCfg) {r c : ℕ} (W : MatQ) (hc : cfg.m ≤ c) :
    ∃ Bm, make_B cfg r c W = .ok Bm := by
  unfold make_B
  rw [if_neg (not_not_intro hc)]
  exact ⟨_, rfl⟩

/-- `make_C` with consistent shapes returns `None`. -/
theorem make_C_ok (cfg : CrossbarCfg) {r c : ℕ} (W : MatQ)
    (hr : cfg.n ≤ r) (hc : c = cfg.m ∨ c = 1) :
    make_C cfg r c W = .ok none := by
  unfold make_C
  rw [if_neg (not_not_intro hr), if_neg (not_not_intro hc)]

/-- `make_C` raises the `index_put` shape mismatch when the value column has
the wrong length. -/
theorem make_C_err (cfg : CrossbarCfg) {r c : ℕ} (W : MatQ)
    (hr : cfg.n ≤ r) (hc : ¬ (c = cfg.m ∨ c = 1)) :
    make_C cfg r c W = .error .shapeMismatch := by
  unfold make_C
  rw [if_neg (not_not_intro hr), if_pos hc]

/-- `make_D` succeeds for at least two columns and covering shapes. -/
theorem make_D_isOk (cfg : CrossbarCfg) {r c : ℕ} (W : MatQ)
    (h2 : 2 ≤ cfg.m) (hb : cfg.n ≤ r ∧ cfg.m ≤ c) :
    ∃ Dm, make_D cfg r c W = .ok Dm := by
  unfold make_D
  rw [if_neg (by omega), if_neg (not_not_intro hb)]
  exact ⟨_, rfl⟩

/-- `make_E` succeeds when the geometry fits and the vector is long enough. -/
theorem make_E_isOk {cfg : CrossbarCfg} {vl : ℕ} (v : VecQ)
    (h2 : 2 ≤ cfg.n) (hmn : cfg.m ≤ cfg.n) (hvl : cfg.m ≤ vl) :
    ∃ Em, make_E cfg vl v = .ok Em := by
  unfold make_E
  rw [if_neg (by omega), if_neg (not_not_intro hmn), if_neg (by omega)]
  exact ⟨_, rfl⟩

/-- `make_E` raises an IndexError when the applied vector is too short. -/
theorem make_E_err {cfg : CrossbarCfg} {vl : ℕ} (v : VecQ)
    (h2 : 2 ≤ cfg.n) (hmn : cfg.m ≤ cfg.n) (hvl : vl < cfg.m) :
    make_E cfg vl v = .error .indexOOB := by
  unfold make_E
  rw [if_neg (by omega), if_neg (not_not_intro hmn), if_pos hvl]

/-! Claim theorems. -/

/-- C1: `solve_v` claims to assemble `M = [[A, B], [C, D]]`, but `make_C`
lacks a return statement and yields `None`, so `torch.cat((C, D), 1)` raises
a TypeError and no call of `solve_v` ever returns a solution; at a
well-formed 2×2 input the failure is exactly the TypeError from the `None`
block. -/
theorem solve_v_never_assembles :
    (∀ (cfg : CrossbarCfg) (r c : ℕ) (W : MatQ) (vl : ℕ) (v : VecQ) (V : VecQ),
      solve_v cfg r c W vl v ≠ .ok V)
    ∧ solve_v cfgD 2 2 W1 2 vIn = .error .typeErrorNoneCat := by
  constructor
  · intro cfg r c W vl v V h
    obtain ⟨e, he⟩ := solve_v_isError cfg r c W vl v
    rw [he] at h
    cases h
  · rfl

/-- C2: with `iter = 0` the full multiply does not return the linear
line-resistance solve output: the single `solve_v` call raises (the `None`
coupling block), so `lineres_memristive_vmm(v, 0)` raises for every input;
at a well-formed 2×2 input the failure is the TypeError from `solve_v`. -/
theorem lineres_iter0_errors :
    (∀ (cb : Crossbar) (vl : ℕ) (v : VecQ),
      ∃ e, lineres_memristive_vmm cb vl v 0 = .error e)
    ∧ lineres_memristive_vmm cb22 2 vIn 0 = .error .typeErrorNoneCat := by
  constructor
  · intro cb vl v
    exact lineres_isError cb vl v 0
  · rfl

/-- C3 counterexample: a zero voltage drop does not keep the previous
conductance.  With a linear device response and `ΔV[0,0] = 0`, the updated
working conductance entry is the undefined value (float NaN/inf, modelled as
`none`), which is not any previous finite conductance such as `5`. -/
theorem refine_update_zero_drop_cex :
    refine_update (fun _ _ x => x / 10) (fun _ _ => 0) 0 0 = none
    ∧ (none : Option ℚ) ≠ some 5 := by
  exact ⟨by decide, by decide⟩

/-- C3 amended: the conductance update divides `inference(ΔV)` by `ΔV`
without consulting the previous working matrix; at a zero drop the entry
becomes undefined (NaN/±inf, modelled `none`) — no exception is raised and
no previous value is retained — and at a nonzero drop it becomes
`inference(ΔV)/ΔV`. -/
theorem refine_update_spec (inf : ℕ → ℕ → ℚ → ℚ) (Vd : MatQ) (i j : ℕ) :
    (Vd i j = 0 → refine_update inf Vd i j = none)
    ∧ (Vd i j ≠ 0 → refine_update inf Vd i j = some (inf i j (Vd i j) / Vd i j)) := by
  constructor <;> intro h <;> simp [refine_update, h]

/-- Witness for the amended C3 statement at a concrete zero-drop input. -/
theorem refine_update_spec_w :
    ((fun (_ _ : ℕ) => (0 : ℚ)) 1 1 = 0)
    ∧ refine_update (fun _ _ x => x / 10) (fun _ _ => 0) 1 1 = none :=
  ⟨rfl, (refine_update_spec (fun _ _ x => x / 10) (fun _ _ => 0) 1 1).1 rfl⟩

/-- C4 counterexample: at the 2×2 all-equal conductance matrix, `make_C`
produces no block at all (it returns `None`), and the block it assembles
internally is not the structural transpose of `B`: `B` has a nonzero entry
at position `(1, 1)` while the assembled block is zero there. -/
theorem makeC_not_transpose_cex :
    make_C cfgD 2 2 W1 = .ok none
    ∧ Except.map (fun B => B 1 1) (make_B cfgD 2 2 W1) = .ok (-(1 / 100))
    ∧ make_C_assembled 2 2 W1 1 1 = 0 := by
  refine ⟨rfl, ?_, ?_⟩
  · simp [make_B, cfgD, mkCfg, Except.map, W1]
  · norm_num [make_C_assembled]

/-- C4 amended: `make_C` returns `None` (the assembled block is discarded);
the tensor assembled internally is the row-permuted negated counterpart of
`B`: the device conductance `W[j, i]` sits at row `j·m + i`, column
`i·n + j` (and nowhere else in that row), while `B` carries `-W[j, i]` at
the diagonal position `i·n + j`; the two agree up to the reindexing
`i·n + j ↦ j·m + i` of the equation rows, not up to transposition. -/
theorem makeC_assembled_permuted_transpose
    (cfg : CrossbarCfg) (W : MatQ) (Bm : MatQ)
    (hB : make_B cfg cfg.n cfg.m W = .ok Bm) :
    make_C cfg cfg.n cfg.m W = .ok none
    ∧ ∀ i j, i < cfg.m → j < cfg.n →
        make_C_assembled cfg.n cfg.m W (j * cfg.m + i) (i * cfg.n + j) = W j i
        ∧ Bm (i * cfg.n + j) (i * cfg.n + j) = -W j i
        ∧ ∀ q, q ≠ i * cfg.n + j →
            make_C_assembled cfg.n cfg.m W (j * cfg.m + i) q = 0 := by
  have hBm : Bm = fun p q =>
      if p = q ∧ p < cfg.m * cfg.n then -W (p % cfg.n) (p / cfg.n) else 0 := by
    unfold make_B at hB
    rw [if_neg (not_not_intro (le_refl cfg.m))] at hB
    simpa using hB.symm
  refine ⟨make_C_ok cfg W (le_refl _) (Or.inl rfl), ?_⟩
  intro i j hi hj
  have hpm : (j * cfg.m + i) % cfg.m = i := block_mod hi
  have hpd : (j * cfg.m + i) / cfg.m = j := block_div hi
  have hplt : j * cfg.m + i < cfg.n * cfg.m := idx_block_lt hj hi
  have hqm : (i * cfg.n + j) % cfg.n = j := block_mod hj
  have hqd : (i * cfg.n + j) / cfg.n = i := block_div hj
  have hqlt : i * cfg.n + j < cfg.m * cfg.n := idx_block_lt hi hj
  refine ⟨?_, ?_, ?_⟩
  · unfold make_C_assembled
    rw [hpm, hpd, if_pos ⟨hplt, rfl⟩]
  · rw [hBm]
    simp [hqlt, hqm, hqd]
  · intro q hq
    unfold make_C_assembled
    rw [hpm, hpd, if_neg]
    rintro ⟨-, hc⟩
    exact hq hc

/-- Witness for the amended C4 statement at the 2×2 all-equal matrix. -/
theorem makeC_assembled_permuted_transpose_w :
    make_B cfgD cfgD.n cfgD.m W1 = .ok BD
    ∧ make_C cfgD cfgD.n cfgD.m W1 = .ok none :=
  ⟨rfl, (makeC_assembled_permuted_transpose cfgD W1 BD rfl).1⟩

/-- C6 counterexample: with the bit-line output bias set to 1 V (and the
default zero bit-line input bias), the bit-line half of `E` is identically
zero — the nonzero bit-line output bias contributes no forcing term, because
`make_E` never reads `v_bl_out`; indeed `E` is unchanged when `v_bl_out`
is reset to zero. -/
theorem make_E_ignores_blout_cex :
    Except.map (fun E => [E 4, E 5, E 6, E 7]) (make_E cfgE 2 vIn) = .ok [0, 0, 0, 0]
    ∧ make_E cfgE 2 vIn = make_E cfgD 2 vIn := by
  refine ⟨?_, rfl⟩
  norm_num [make_E, cfgE, cfgD, mkCfg, Except.map]

/-- C6 amended: the word-line half of `E` is as claimed — `v_applied[i] ·
g_s_wl_in[i]` at the driven input end of column `i`, `v_wl_out[i] ·
g_s_wl_out[i]` at the output end, zero in between.  The bit-line half,
however, uses the bit-line INPUT bias at both terminal ends
(`-v_bl_in[i] · g_s_bl_in[i]` and `-v_bl_in[i] · g_s_bl_out[i]`); the
bit-line output bias `v_bl_out` is never read, so it contributes no forcing
term at all. -/
theorem make_E_spec (cfg : CrossbarCfg) (vl : ℕ) (v : VecQ) (Ev : VecQ)
    (hE : make_E cfg vl v = .ok Ev) :
    (∀ x, make_E { cfg with v_bl_out := x } vl v = make_E cfg vl v)
    ∧ ∀ i, i < cfg.m →
        Ev (i * cfg.n) = v i * cfg.g_s_wl_in i
        ∧ Ev (i * cfg.n + (cfg.n - 1)) = cfg.v_wl_out i * cfg.g_s_wl_out i
        ∧ Ev (cfg.m * cfg.n + i * cfg.n) = -(cfg.v_bl_in i * cfg.g_s_bl_in i)
        ∧ Ev (cfg.m * cfg.n + i * cfg.n + (cfg.n - 1))
            = -(cfg.v_bl_in i * cfg.g_s_bl_out i)
        ∧ ∀ r, 0 < r → r < cfg.n - 1 →
            Ev (i * cfg.n + r) = 0 ∧ Ev (cfg.m * cfg.n + i * cfg.n + r) = 0 := by
  have hind : ∀ x, make_E { cfg with v_bl_out := x } vl v = make_E cfg vl v :=
    fun _ => rfl
  refine ⟨hind, ?_⟩
  unfold make_E at hE
  by_cases h1 : cfg.n < 2
  · rw [if_pos h1] at hE
    exact Except.noConfusion hE
  rw [if_neg h1] at hE
  by_cases h2 : ¬ cfg.m ≤ cfg.n
  · rw [if_pos h2] at hE
    exact Except.noConfusion hE
  rw [if_neg h2] at hE
  by_cases h3 : vl < cfg.m
  · rw [if_pos h3] at hE
    exact Except.noConfusion hE
  rw [if_neg h3] at hE
  · have hn2 : 2 ≤ cfg.n := by omega
    have hnpos : 0 < cfg.n := by omega
    simp only [Except.ok.injEq] at hE
    subst hE
    intro i hi
    have hin : i * cfg.n < cfg.m * cfg.n := by
      have := idx_block_lt hi hnpos
      omega
    have hend : i * cfg.n + (cfg.n - 1) < cfg.m * cfg.n :=
      idx_block_lt hi (by omega)
    refine ⟨?_, ?_, ?_, ?_, ?_⟩
    · simp only [if_pos hin]
      rw [Nat.mul_mod_left, if_pos rfl, Nat.mul_div_cancel _ hnpos]
    · simp only [if_pos hend]
      rw [block_mod (by omega), block_div (by omega)]
      rw [if_neg (by omega), if_pos rfl]
    · have hge : ¬ cfg.m * cfg.n + i * cfg.n < cfg.m * cfg.n := by omega
      have hlt2 : cfg.m * cfg.n + i * cfg.n < 2 * (cfg.m * cfg.n) := by omega
      simp only [if_neg hge, if_pos hlt2, Nat.add_sub_cancel_left]
      rw [Nat.mul_mod_left, if_pos rfl, Nat.mul_div_cancel _ hnpos]
    · have hge : ¬ cfg.m * cfg.n + i * cfg.n + (cfg.n - 1) < cfg.m * cfg.n := by omega
      have hlt2 : cfg.m * cfg.n + i * cfg.n + (cfg.n - 1) < 2 * (cfg.m * cfg.n) := by
        omega
      have hsub : cfg.m * cfg.n + i * cfg.n + (cfg.n - 1) - cfg.m * cfg.n
          = i * cfg.n + (cfg.n - 1) := by omega
      simp only [if_neg hge, if_pos hlt2, hsub]
      rw [block_mod (by omega), block_div (by omega)]
      rw [if_neg (by omega), if_pos rfl]
    · intro r hr0 hrn
      have hrlt : r < cfg.n := by omega
      constructor
      · have hmid : i * cfg.n + r < cfg.m * cfg.n := idx_block_lt hi hrlt
        simp only [if_pos hmid]
        rw [block_mod hrlt]
        rw [if_neg (by omega), if_neg (by omega)]
      · have hge : ¬ cfg.m * cfg.n + i * cfg.n + r < cfg.m * cfg.n := by omega
        have hlt2 : cfg.m * cfg.n + i * cfg.n + r < 2 * (cfg.m * cfg.n) := by
          have := idx_block_lt hi hrlt
          omega
        have hsub : cfg.m * cfg.n + i * cfg.n + r - cfg.m * cfg.n
            = i * cfg.n + r := by omega
        simp only [if_neg hge, if_pos hlt2, hsub]
        rw [block_mod hrlt]
        rw [if_neg (by omega), if_neg (by omega)]

/-- Witness for the amended C6 statement at the concrete 2×2
configuration. -/
theorem make_E_spec_w :
    make_E cfgD 2 vIn = .ok EvD
    ∧ (∀ x, make_E { cfgD with v_bl_out := x } 2 vIn = make_E cfgD 2 vIn) :=
  ⟨rfl, (make_E_spec cfgD 2 vIn EvD rfl).1⟩

/-- C7 counterexample: a voltage vector of length 3 against declared
geometry `(2, 2)` is not rejected by any shape check — the call fails with
the same unconditional TypeError (the `None` coupling block) as the
well-formed length-2 call, not with a shape mismatch. -/
theorem solve_v_overlong_v_cex :
    solve_v cfgD 2 2 Wc 3 vIn = .error .typeErrorNoneCat
    ∧ solve_v cfgD 2 2 Wc 2 vIn = .error .typeErrorNoneCat
    ∧ Err.typeErrorNoneCat ≠ Err.shapeMismatch :=
  ⟨rfl, rfl, by decide⟩

/-- C7 amended: there is no dedicated shape validation.  A conductance
matrix with an extra column, shape `(n, m+1)`, does fail before any solve,
but with the `index_put` shape-mismatch error inside `make_C`; a voltage
vector shorter than `m` fails with an IndexError inside `make_E`; a voltage
vector of length `≥ m` (including strictly longer than `m`) is accepted,
the extra entries ignored, and the call fails with the TypeError from the
`None` coupling block exactly as every well-formed call does. -/
theorem solve_v_shape_behavior (cfg : CrossbarCfg) (W : MatQ) (vl : ℕ) (v : VecQ)
    (h2n : 2 ≤ cfg.n) (h2m : 2 ≤ cfg.m) (hmn : cfg.m ≤ cfg.n) :
    solve_v cfg cfg.n (cfg.m + 1) W vl v = .error .shapeMismatch
    ∧ (vl < cfg.m → solve_v cfg cfg.n cfg.m W vl v = .error .indexOOB)
    ∧ (cfg.m ≤ vl → solve_v cfg cfg.n cfg.m W vl v = .error .typeErrorNoneCat) := by
  refine ⟨?_, ?_, ?_⟩
  · obtain ⟨Am, hA⟩ :=
      make_A_isOk cfg (r := cfg.n) (c := cfg.m + 1) W h2n (by omega) rfl
    obtain ⟨Bm, hB⟩ := make_B_isOk cfg (r := cfg.n) (c := cfg.m + 1) W (by omega)
    have hC := make_C_err cfg (r := cfg.n) (c := cfg.m + 1) W (le_refl _) (by omega)
    unfold solve_v
    rw [hA, hB, hC]
  · intro hvl
    obtain ⟨Am, hA⟩ :=
      make_A_isOk cfg (r := cfg.n) (c := cfg.m) W h2n (le_refl _) rfl
    obtain ⟨Bm, hB⟩ := make_B_isOk cfg (r := cfg.n) (c := cfg.m) W (le_refl _)
    have hC := make_C_ok cfg (r := cfg.n) (c := cfg.m) W (le_refl _) (Or.inl rfl)
    obtain ⟨Dm, hD⟩ :=
      make_D_isOk cfg (r := cfg.n) (c := cfg.m) W h2m ⟨le_refl _, le_refl _⟩
    have hE := make_E_err v h2n hmn hvl
    unfold solve_v
    rw [hA, hB, hC, hD, hE]
  · intro hvl
    obtain ⟨Am, hA⟩ :=
      make_A_isOk cfg (r := cfg.n) (c := cfg.m) W h2n (le_refl _) rfl
    obtain ⟨Bm, hB⟩ := make_B_isOk cfg (r := cfg.n) (c := cfg.m) W (le_refl _)
    have hC := make_C_ok cfg (r := cfg.n) (c := cfg.m) W (le_refl _) (Or.inl rfl)
    obtain ⟨Dm, hD⟩ :=
      make_D_isOk cfg (r := cfg.n) (c := cfg.m) W h2m ⟨le_refl _, le_refl _⟩
    obtain ⟨Em, hE⟩ := make_E_isOk v h2n hmn hvl
    unfold solve_v
    rw [hA, hB, hC, hD, hE]

/-- Witness for the amended C7 statement: the mis-shaped 2×3 conductance
matrix at the 2×2 configuration. -/
theorem solve_v_shape_behavior_w :
    (2 ≤ cfgD.n)
    ∧ solve_v cfgD cfgD.n (cfgD.m + 1) Wc 2 vIn = .error .shapeMismatch :=
  ⟨by decide, (solve_v_shape_behavior cfgD Wc 2 vIn (by decide) (by decide)
    (by decide)).1⟩

/-- C5: for `iter ≥ 1` the full multiply never performs a refinement round
nor returns the row-summed current vector: the initial `solve_v` raises
first, so every call raises; at a well-formed 2×2 input with one iteration
the failure is the TypeError from the `None` coupling block. -/
theorem lineres_iterpos_errors :
    (∀ (cb : Crossbar) (vl : ℕ) (v : VecQ) (iter : ℕ), 1 ≤ iter →
      ∃ e, lineres_memristive_vmm cb vl v iter = .error e)
    ∧ lineres_memristive_vmm cb22 2 vIn 1 = .error .typeErrorNoneCat := by
  constructor
  · intro cb vl v iter _
    exact lineres_isError cb vl v iter
  · rfl

/-- Witness for C5 at a concrete input with one iteration. -/
theorem lineres_iterpos_errors_w :
    (1 ≤ 1)
    ∧ ∃ e, lineres_memristive_vmm cb22 2 vIn 1 = .error e :=
  ⟨Nat.le_refl 1, lineres_iterpos_errors.1 cb22 2 vIn 1 (Nat.le_refl 1)⟩

/-- C9: on the 1×1 scenario (ideal conductance `1e-4` S, applied `0.2` V)
the ideal multiply returns exactly `2e-5` A, but the full
line-resistance-aware multiply raises (the squeezed `fitted_w` is 0-dim, so
`make_A` fails on `W_t[i, :]`) and never produces an output to compare
against any tolerance. -/
theorem scenario_1x1 :
    ideal_vmm cb11 [1 / 5] = .ok (.vec [1 / 50000])
    ∧ lineres_memristive_vmm cb11 1 vIn 1 = .error .indexOOB := by
  refine ⟨?_, rfl⟩
  simp [ideal_vmm, torchMatmul, rowsOf, dotL, cb11]
  norm_num

/-- Dot product of cons cells. -/
theorem dotL_cons (a x : ℚ) (rs xs : List ℚ) :
    dotL (a :: rs) (x :: xs) = a * x + dotL rs xs := by
  simp [dotL]

/-- Dot products are homogeneous in the right argument. -/
theorem dotL_smul (k : ℚ) : ∀ (r v : List ℚ), dotL r (smulL k v) = k * dotL r v
  | [], _ => by simp [dotL]
  | _ :: _, [] => by simp [dotL, smulL]
  | a :: rs, x :: xs => by
    rw [smulL, List.map_cons,
      show List.map (fun y => k * y) xs = smulL k xs from rfl,
      dotL_cons, dotL_cons, dotL_smul k rs xs]
    ring

/-- Dot products are additive in the right argument (for equal lengths). -/
theorem dotL_add : ∀ (r v u : List ℚ), v.length = u.length →
    dotL r (addL v u) = dotL r v + dotL r u
  | [], _, _, _ => by simp [dotL]
  | _ :: _, [], u, h => by
    have hu : u = [] := by cases u <;> simp_all
    subst hu
    simp [dotL, addL]
  | _ :: _, _ :: _, [], h => by simp at h
  | a :: rs, x :: xs, y :: ys, h => by
    rw [addL, List.zipWith_cons_cons,
      show List.zipWith (· + ·) xs ys = addL xs ys from rfl,
      dotL_cons, dotL_cons, dotL_cons, dotL_add rs xs ys (by simpa using h)]
    ring

/-- Every row produced by `rowsOf` has length `m`. -/
theorem rowsOf_length_mem {n m : ℕ} {g : ℕ → ℕ → ℚ} {r : List ℚ}
    (h : r ∈ rowsOf n m g) : r.length = m := by
  simp only [rowsOf, List.mem_map] at h
  obtain ⟨i, -, rfl⟩ := h
  simp

/-- Matrix-vector multiplication on well-shaped inputs is the list of row
dot products. -/
theorem matmul_mat_vec {n m : ℕ} (g : ℕ → ℕ → ℚ) (b : List ℚ) (hb : b.length = m) :
    torchMatmul (.mat (rowsOf n m g)) (.vec b)
      = .ok (.vec ((rowsOf n m g).map (fun r => dotL r b))) := by
  simp only [torchMatmul]
  rw [if_pos]
  intro r hr
  rw [rowsOf_length_mem hr, hb]

/-- `torch.matmul` with any left tensor is homogeneous in the right vector
(errors map to the same errors). -/
theorem matmul_smul (t : Tensor) (v : List ℚ) (k : ℚ) :
    torchMatmul t (.vec (smulL k v)) = Except.map (smulT k) (torchMatmul t (.vec v)) := by
  have hlen : (smulL k v).length = v.length := by simp [smulL]
  cases t with
  | scalar x => rfl
  | vec a =>
    simp only [torchMatmul, hlen]
    by_cases h : a.length = v.length
    · rw [if_pos h, if_pos h]
      simp [Except.map, smulT, dotL_smul]
    · rw [if_neg h, if_neg h]
      rfl
  | mat A =>
    simp only [torchMatmul, hlen]
    by_cases h : ∀ r ∈ A, r.length = v.length
    · rw [if_pos h, if_pos h]
      simp only [Except.map, smulT, smulL, List.map_map, Function.comp,
        Except.ok.injEq, Tensor.vec.injEq]
      exact List.map_congr_left (fun r _ => dotL_smul k r v)
    · rw [if_neg h, if_neg h]
      rfl

/-- `torch.matmul` with any left tensor is additive in the right vector on
the inputs where it succeeds. -/
theorem matmul_add (t : Tensor) (v u : List ℚ) (hlen : v.length = u.length)
    (t1 t2 : Tensor) (h1 : torchMatmul t (.vec v) = .ok t1)
    (h2 : torchMatmul t (.vec u) = .ok t2) :
    torchMatmul t (.vec (addL v u)) = .ok (addT t1 t2) := by
  have hadd : (addL v u).length = v.length := by simp [addL]; omega
  cases t with
  | scalar x => exact Except.noConfusion h1
  | vec a =>
    simp only [torchMatmul] at h1 h2 ⊢
    by_cases h : a.length = v.length
    · rw [if_pos h] at h1
      rw [if_pos (hlen ▸ h)] at h2
      simp only [Except.ok.injEq] at h1 h2
      subst h1
      subst h2
      rw [hadd, if_pos h]
      simp [addT, dotL_add _ _ _ hlen]
    · rw [if_neg h] at h1
      exact Except.noConfusion h1
  | mat A =>
    simp only [torchMatmul] at h1 h2 ⊢
    by_cases h : ∀ r ∈ A, r.length = v.length
    · rw [if_pos h] at h1
      rw [if_pos (fun r hr => (h r hr).trans hlen)] at h2
      simp only [Except.ok.injEq] at h1 h2
      subst h1
      subst h2
      rw [if_pos (fun r hr => (h r hr).trans hadd.symm)]
      simp only [addT, Except.ok.injEq, Tensor.vec.injEq, addL]
      rw [List.zipWith_map, List.zipWith_same]
      exact List.map_congr_left (fun r _ => dotL_add r v u hlen)
    · rw [if_neg h] at h1
      exact Except.noConfusion h1

/-- C8: the ideal multiply is exactly the matrix-vector product of the ideal
target conductances with `v`, and both the ideal and the fitted-linear
multiplies are linear in the input: scaling the input scales the result, and
on inputs where they succeed they are additive. -/
theorem vmm_linear (cb : Crossbar) (v u : List ℚ) (k : ℚ)
    (hv : v.length = cb.m) (hu : u.length = cb.m) :
    ideal_vmm cb v = .ok (.vec ((rowsOf cb.n cb.m cb.ideal).map (fun r => dotL r v)))
    ∧ ideal_vmm cb (smulL k v) = Except.map (smulT k) (ideal_vmm cb v)
    ∧ (∀ t1 t2, ideal_vmm cb v = .ok t1 → ideal_vmm cb u = .ok t2 →
        ideal_vmm cb (addL v u) = .ok (addT t1 t2))
    ∧ naive_linear_memristive_vmm cb (smulL k v)
        = Except.map (smulT k) (naive_linear_memristive_vmm cb v)
    ∧ (∀ t1 t2, naive_linear_memristive_vmm cb v = .ok t1 →
        naive_linear_memristive_vmm cb u = .ok t2 →
        naive_linear_memristive_vmm cb (addL v u) = .ok (addT t1 t2)) := by
  have hlen : v.length = u.length := hv.trans hu.symm
  refine ⟨?_, ?_, ?_, ?_, ?_⟩
  · exact matmul_mat_vec cb.ideal v hv
  · exact matmul_smul (.mat (rowsOf cb.n cb.m cb.ideal)) v k
  · exact fun t1 t2 h1 h2 =>
      matmul_add (.mat (rowsOf cb.n cb.m cb.ideal)) v u hlen t1 t2 h1 h2
  · exact matmul_smul (fitted_w cb) v k
  · exact fun t1 t2 h1 h2 => matmul_add (fitted_w cb) v u hlen t1 t2 h1 h2

/-- Witness for C8 at the concrete 2×2 crossbar. -/
theorem vmm_linear_w :
    (([1, 2] : List ℚ).length = cb22.m)
    ∧ ideal_vmm cb22 (smulL 3 [1, 2]) = Except.map (smulT 3) (ideal_vmm cb22 [1, 2]) :=
  ⟨by decide, (vmm_linear cb22 [1, 2] [3, 4] 3 (by decide) (by decide)).2.1⟩

/-- C10 counterexample: on a 2×1 crossbar (single column), the fitted-linear
multiply of a valid length-1 input does not return a 0-dim scalar — the
squeezed `fitted_w` has shape `(n,) = (2,)` and `torch.matmul` with the
length-1 vector raises a size mismatch. -/
theorem naive_m1_cex :
    naive_linear_memristive_vmm cb21 [5] = .error .shapeMismatch := by
  rfl

/-- C10 amended: the squeeze at construction makes the fitted-linear
multiply shape-dependent.  Only a single-row crossbar (`n = 1`, `m ≥ 2`)
returns a 0-dim scalar (the dot product of the squeezed row with the input);
a single-column crossbar (`m = 1`, `n ≥ 2`) fails with a size mismatch, a
1×1 crossbar fails because `fitted_w` is 0-dim, and the 2-D case returns the
length-`n` vector of row dot products. -/
theorem naive_squeeze_spec (cb : Crossbar) (v : List ℚ) (hv : v.length = cb.m) :
    (cb.n = 1 → 2 ≤ cb.m →
      naive_linear_memristive_vmm cb v
        = .ok (.scalar (dotL ((List.range cb.m).map (fun j => cb.gfit 0 j)) v)))
    ∧ (2 ≤ cb.n → cb.m = 1 →
      naive_linear_memristive_vmm cb v = .error .shapeMismatch)
    ∧ (cb.n = 1 → cb.m = 1 →
      naive_linear_memristive_vmm cb v = .error .matmulLowDim)
    ∧ (2 ≤ cb.n → 2 ≤ cb.m →
      naive_linear_memristive_vmm cb v
        = .ok (.vec ((rowsOf cb.n cb.m cb.gfit).map (fun r => dotL r v)))) := by
  refine ⟨?_, ?_, ?_, ?_⟩
  · intro hn hm
    have hf : fitted_w cb = .vec ((List.range cb.m).map (fun j => cb.gfit 0 j)) := by
      simp [fitted_w, torchSqueeze, hn, show ¬ cb.m = 1 by omega]
    rw [naive_linear_memristive_vmm, hf]
    simp only [torchMatmul]
    rw [if_pos (by simp [hv])]
  · intro hn hm
    have hf : fitted_w cb = .vec ((List.range cb.n).map (fun i => cb.gfit i 0)) := by
      simp [fitted_w, torchSqueeze, hm, show ¬ cb.n = 1 by omega]
    rw [naive_linear_memristive_vmm, hf]
    simp only [torchMatmul]
    rw [if_neg (by simp [hv, hm]; omega)]
  · intro hn hm
    have hf : fitted_w cb = .scalar (cb.gfit 0 0) := by
      simp [fitted_w, torchSqueeze, hn, hm]
    rw [naive_linear_memristive_vmm, hf]
    rfl
  · intro hn hm
    have hf : fitted_w cb = .mat (rowsOf cb.n cb.m cb.gfit) := by
      simp [fitted_w, torchSqueeze, show ¬ cb.n = 1 by omega, show ¬ cb.m = 1 by omega]
    rw [naive_linear_memristive_vmm, hf]
    exact matmul_mat_vec cb.gfit v hv

/-- Witness for the amended C10 statement on the 1×2 crossbar. -/
theorem naive_squeeze_spec_w :
    (([5, 7] : List ℚ).length = cb12.m)
    ∧ naive_linear_memristive_vmm cb12 [5, 7]
        = .ok (.scalar (dotL ((List.range cb12.m).map (fun j => cb12.gfit 0 j)) [5, 7])) :=
  ⟨by decide, (naive_squeeze_spec cb12 [5, 7] (by decide)).1 (by decide) (by decide)⟩
